import Mathlib

/-!
Shallow embedding of the runfast Runner Resolution & Cache subsystem
(src/main.rs and src/runner.rs).

Pure data and control flow are translated directly; ambient process state
(current working directory, file existence, TOML parse outcomes, the skim
selector session) is passed in as explicit parameters, and the single
side effect of `add_runner` (serialising the whole cache and writing it to
the fixed cache path) is recorded as a boolean write flag.
-/

namespace Runfast

/-- Embeds `struct Runner` of src/runner.rs: name, shell command, and the
exit-prompt policy flag. -/
structure Runner where
  name : String
  cmd : String
  quit_fast : Bool
deriving DecidableEq, Repr

/-- Embeds `struct RunnerConfig` of src/runner.rs: the partial,
optional-valued mirror of `Runner` parsed from a TOML source. -/
structure RunnerConfig where
  name : Option String
  cmd : Option String
  quit_fast : Option Bool
deriving DecidableEq, Repr

/-- Embeds `Runner::new_from_config`: fills absent fields with the fixed
defaults and keeps present fields. -/
def Runner.new_from_config (conf : RunnerConfig) : Runner :=
  { name := match conf.name with
      | some n => n
      | none => "Default Runner Name"
    cmd := match conf.cmd with
      | some c => c
      | none => "echo \x27command not set\x27"
    quit_fast := conf.quit_fast.getD false }

/-- Embeds `struct Config` of src/runner.rs: a parsed configuration source
with an optional list of runner entries. -/
structure Config where
  runners : Option (List RunnerConfig)
deriving DecidableEq, Repr

/-- Embeds `get_runners_from_config`: resolves every entry of an optional
configuration source into a full `Runner`, in source order. -/
def get_runners_from_config (conf : Option Config) : List Runner :=
  match conf with
  | some c =>
    match c.runners with
    | some r => r.map Runner.new_from_config
    | none => []
  | none => []

/-- One iteration of the merge loop in `load_runners` (src/runner.rs):
scan the accumulated list for a runner with the same name and push the
popped default runner at the end only when none is found. -/
def mergeStep (runners : List Runner) (dr : Runner) : List Runner :=
  if runners.any (fun r => dr.name == r.name) then runners
  else runners ++ [dr]

/-- Embeds the merge core of `load_runners` (src/runner.rs, lines 129-145):
starting from the user-derived runner list, the `while` loop pops default
runners from the END of their list (hence the `reverse`) and appends each
one unless a runner of the same name is already in the accumulated list. -/
def load_runners (user_runners default_runners : List Runner) : List Runner :=
  default_runners.reverse.foldl mergeStep user_runners

/-- The merge result as claimed by the spec: user runners first, then the
default runners in reverse declaration order filtered ONLY against the
user-derived names. Written from the spec text, to be compared with
`load_runners`. -/
def mergedPerSpec (user_runners default_runners : List Runner) : List Runner :=
  user_runners ++
    default_runners.reverse.filter
      (fun d => user_runners.all (fun u => !(u.name == d.name)))

/-- Helper characterising the defaults actually appended by the merge loop:
walk the (already reversed) default list, keeping a runner only when its
name is not blocked, and blocking its name for the rest of the walk once
it is kept. -/
def appendedDefaults (blocked : List String) : List Runner → List Runner
  | [] => []
  | d :: ds =>
    if d.name ∈ blocked then appendedDefaults blocked ds
    else d :: appendedDefaults (d.name :: blocked) ds

/-- Outcome of parsing a TOML string, abstracting `toml::from_str`. -/
inductive ParseOutcome (α : Type) where
  | ok (val : α)
  | err
deriving DecidableEq, Repr

/-- Embeds `struct RunnerCache` of src/main.rs. The Rust `HashMap<PathBuf,
Runner>` is modelled as an association list with string keys; the HashMap
key-uniqueness invariant is maintained by `add_runner` itself
(remove-then-insert). -/
structure RunnerCache where
  runners : List (String × Runner)
deriving DecidableEq, Repr

namespace RunnerCache

/-- Embeds `RunnerCache::load` (src/main.rs lines 26-49): a missing cache
file yields an EMPTY cache; an existing file that fails to parse yields
`none` (with a printed diagnostic), intentionally distinct from the empty
cache so that no blank cache overwrites the corrupted file. -/
def load (file_present : Bool) (parsed : ParseOutcome RunnerCache) :
    Option RunnerCache :=
  if !file_present then some ⟨[]⟩
  else
    match parsed with
    | .ok cache => some cache
    | .err => none

/-- Embeds `RunnerCache::try_get_runner`: exact-match lookup of the current
working directory. -/
def try_get_runner (self : RunnerCache) (cwd : String) : Option Runner :=
  match self.runners.find? (fun p => p.1 == cwd) with
  | some p => some p.2
  | none => none

/-- Embeds the in-memory part of `RunnerCache::add_runner` (src/main.rs
lines 57-63): if the current path is already a key it is removed first,
then the new pair is inserted. (The serialise-and-write tail of the Rust
function is modelled by the write flag in `mainStep`.) -/
def add_runner (self : RunnerCache) (cwd : String) (r : Runner) :
    RunnerCache :=
  let cleaned :=
    if self.runners.any (fun p => p.1 == cwd) then
      self.runners.filter (fun p => p.1 != cwd)
    else self.runners
  ⟨cleaned ++ [(cwd, r)]⟩

end RunnerCache

/-- Outcome of one skim selector session, abstracting `Skim::run_with`:
the selector can fail to start (`Skim::run_with` returns `None`), report a
user abort (`Event::EvActAbort`), or return exactly one selected key. -/
inductive SkimOutcome where
  | failed
  | aborted
  | selected (key : String)
deriving DecidableEq, Repr

/-- Embeds `select_new_runner` (src/main.rs lines 126-175): a failed or
aborted selector session yields `none`; otherwise the chosen key is
resolved against the candidate list by the final `for` loop, which
overwrites `chosen_runner` on EVERY name match. -/
def select_new_runner (runners : List Runner) (outcome : SkimOutcome) :
    Option Runner :=
  match outcome with
  | .failed => none
  | .aborted => none
  | .selected key =>
    runners.foldl (fun acc r => if r.name == key then some r else acc) none

/-- The observable outcome of one run of `main`: the chosen runner (if any),
the in-memory cache at the end, and whether `add_runner` was invoked (each
invocation serialises the cache and writes it to the cache file). -/
structure StepResult where
  chosen : Option Runner
  cacheAfter : Option RunnerCache
  diskWritten : Bool
deriving DecidableEq, Repr

/-- Embeds the orchestration of `main` (src/main.rs lines 84-123): the
force branch always consults the selector and persists a successful choice
only when the cache loaded; the normal branch returns a cache hit directly,
consults the selector on a miss, and never persists when the cache load
failed. -/
def mainStep (force_choose_new : Bool) (cache : Option RunnerCache)
    (cwd : String) (runners : List Runner) (outcome : SkimOutcome) :
    StepResult :=
  if force_choose_new then
    match select_new_runner runners outcome with
    | some r =>
      match cache with
      | some c => ⟨some r, some (c.add_runner cwd r), true⟩
      | none => ⟨some r, none, false⟩
    | none => ⟨none, cache, false⟩
  else
    match cache with
    | some c =>
      match c.try_get_runner cwd with
      | some rnr => ⟨some rnr, some c, false⟩
      | none =>
        match select_new_runner runners outcome with
        | some r => ⟨some r, some (c.add_runner cwd r), true⟩
        | none => ⟨none, some c, false⟩
    | none => ⟨select_new_runner runners outcome, none, false⟩

end Runfast

namespace Runfast

/-! Helper lemmas shared by the claim theorems. -/

/-- The key-resolution fold of `select_new_runner` keeps the LAST matching
runner: it equals `find?` on the reversed list, with the initial
accumulator as fallback. -/
theorem foldl_resolve_eq_find?_reverse (key : String) :
    ∀ (l : List Runner) (init : Option Runner),
      l.foldl (fun acc r => if r.name == key then some r else acc) init =
        (l.reverse.find? (fun r => r.name == key)).or init := by
  intro l
  induction l with
  | nil => intro init; simp
  | cons x l ih =>
    intro init
    rw [List.foldl_cons, ih, List.reverse_cons, List.find?_append]
    cases h : l.reverse.find? (fun r => r.name == key) with
    | some r => simp
    | none =>
      cases hx : x.name == key <;> simp [List.find?, hx]

/-- CLAIM C3 (counterexample). With two candidates sharing the selected
name, `select_new_runner` does not return the FIRST match of the original
candidate list, contrary to the claim. -/
theorem select_new_runner_first_match_counterexample :
    select_new_runner [⟨"x", "a", false⟩, ⟨"x", "b", false⟩]
        (SkimOutcome.selected "x") ≠
      List.find? (fun r => r.name == "x")
        [⟨"x", "a", false⟩, ⟨"x", "b", false⟩] := by decide

/-- CLAIM C3 (amended): when the selector returns a chosen name,
`select_new_runner` resolves it by exact name match in the candidate list,
and when several candidates share that name the LAST match in list order
is returned (formally: `find?` on the reversed list). -/
theorem select_new_runner_resolves_last_match
    (runners : List Runner) (key : String) :
    select_new_runner runners (SkimOutcome.selected key) =
      runners.reverse.find? (fun r => r.name == key) := by
  show runners.foldl (fun acc r => if r.name == key then some r else acc)
      none = _
  rw [foldl_resolve_eq_find?_reverse, Option.or_none]

/-- CLAIM C10: if the chosen key matches no runner name in the candidate
list, `select_new_runner` returns `none` (no runner selected) rather than
an arbitrary runner. -/
theorem select_new_runner_unmatched_key (runners : List Runner)
    (key : String) (h : ∀ r ∈ runners, r.name ≠ key) :
    select_new_runner runners (SkimOutcome.selected key) = none := by
  show runners.foldl (fun acc r => if r.name == key then some r else acc)
      none = none
  rw [foldl_resolve_eq_find?_reverse, Option.or_none, List.find?_eq_none]
  intro r hr
  simp only [beq_iff_eq]
  exact h r (List.mem_reverse.mp hr)

/-- Witness for C10 at a concrete candidate list and key. -/
theorem select_new_runner_unmatched_key_witness :
    (∀ r ∈ [(⟨"x", "a", false⟩ : Runner)], r.name ≠ "y") ∧
      select_new_runner [⟨"x", "a", false⟩] (SkimOutcome.selected "y") =
        none :=
  ⟨by decide, select_new_runner_unmatched_key _ _ (by decide)⟩

/-- CLAIM C4: `Runner::new_from_config` preserves every present field
unchanged, substitutes exactly the fixed defaults for absent fields, and
is the identity on the three fields of a fully-specified entry. -/
theorem new_from_config_resolution :
    (∀ (n : String) (c0 : Option String) (q0 : Option Bool),
        (Runner.new_from_config ⟨some n, c0, q0⟩).name = n)
    ∧ (∀ (c0 : Option String) (q0 : Option Bool),
        (Runner.new_from_config ⟨none, c0, q0⟩).name =
          "Default Runner Name")
    ∧ (∀ (n0 : Option String) (c : String) (q0 : Option Bool),
        (Runner.new_from_config ⟨n0, some c, q0⟩).cmd = c)
    ∧ (∀ (n0 : Option String) (q0 : Option Bool),
        (Runner.new_from_config ⟨n0, none, q0⟩).cmd =
          "echo \x27command not set\x27")
    ∧ (∀ (n0 : Option String) (c0 : Option String) (q : Bool),
        (Runner.new_from_config ⟨n0, c0, some q⟩).quit_fast = q)
    ∧ (∀ (n0 : Option String) (c0 : Option String),
        (Runner.new_from_config ⟨n0, c0, none⟩).quit_fast = false)
    ∧ ∀ (n c : String) (q : Bool),
        Runner.new_from_config ⟨some n, some c, some q⟩ = ⟨n, c, q⟩ := by
  refine ⟨fun _ _ _ => rfl, fun _ _ => rfl, fun _ _ _ => rfl,
    fun _ _ => rfl, fun _ _ _ => rfl, fun _ _ => rfl, fun _ _ _ => rfl⟩

end Runfast

namespace Runfast

/-- Scanning a runner list for a name clash is the same as a membership
test on the projected name list. -/
theorem any_name_iff (acc : List Runner) (n : String) :
    acc.any (fun r => n == r.name) = true ↔ n ∈ acc.map Runner.name := by
  simp only [List.any_eq_true, List.mem_map, beq_iff_eq]
  constructor
  · rintro ⟨r, hr, rfl⟩
    exact ⟨r, hr, rfl⟩
  · rintro ⟨r, hr, rfl⟩
    exact ⟨r, hr, rfl⟩

/-- Unfolding equation of `appendedDefaults` on a cons cell. -/
theorem appendedDefaults_cons (blocked : List String) (d : Runner)
    (ds : List Runner) :
    appendedDefaults blocked (d :: ds) =
      if d.name ∈ blocked then appendedDefaults blocked ds
      else d :: appendedDefaults (d.name :: blocked) ds := rfl

/-- `appendedDefaults` only inspects the blocked list through membership,
so blocked lists with the same members give the same result. -/
theorem appendedDefaults_congr :
    ∀ (ds : List Runner) (b1 b2 : List String),
      (∀ n, n ∈ b1 ↔ n ∈ b2) →
      appendedDefaults b1 ds = appendedDefaults b2 ds := by
  intro ds
  induction ds with
  | nil => intro b1 b2 _; rfl
  | cons d ds ih =>
    intro b1 b2 h
    by_cases hd : d.name ∈ b1
    · have hd2 : d.name ∈ b2 := (h d.name).mp hd
      rw [appendedDefaults_cons, appendedDefaults_cons, if_pos hd,
        if_pos hd2]
      exact ih b1 b2 h
    · have hd2 : d.name ∉ b2 := fun hc => hd ((h d.name).mpr hc)
      rw [appendedDefaults_cons, appendedDefaults_cons, if_neg hd,
        if_neg hd2]
      exact congrArg _ (ih _ _ fun n => by simp [List.mem_cons, h n])

/-- The merge fold of `load_runners` appends, after the accumulator,
exactly the runners selected by `appendedDefaults` blocked on the
accumulator's names. -/
theorem foldl_mergeStep_eq :
    ∀ (ds acc : List Runner),
      ds.foldl mergeStep acc =
        acc ++ appendedDefaults (acc.map Runner.name) ds := by
  intro ds
  induction ds with
  | nil => intro acc; simp [appendedDefaults]
  | cons d ds ih =>
    intro acc
    rw [List.foldl_cons, ih]
    by_cases h : d.name ∈ acc.map Runner.name
    · have hm : mergeStep acc d = acc := by
        unfold mergeStep
        rw [if_pos ((any_name_iff acc d.name).mpr h)]
      have ha : appendedDefaults (acc.map Runner.name) (d :: ds) =
          appendedDefaults (acc.map Runner.name) ds := by
        rw [appendedDefaults_cons, if_pos h]
      rw [hm, ha]
    · have hm : mergeStep acc d = acc ++ [d] := by
        unfold mergeStep
        rw [if_neg (fun hc => h ((any_name_iff acc d.name).mp hc))]
      have ha : appendedDefaults (acc.map Runner.name) (d :: ds) =
          d :: appendedDefaults (d.name :: acc.map Runner.name) ds := by
        rw [appendedDefaults_cons, if_neg h]
      rw [hm, ha, List.map_append, List.map_cons, List.map_nil,
        List.append_assoc]
      have hcongr :
          appendedDefaults (acc.map Runner.name ++ [d.name]) ds =
            appendedDefaults (d.name :: acc.map Runner.name) ds := by
        refine appendedDefaults_congr ds _ _ fun n => ?_
        simp [List.mem_append, List.mem_cons, or_comm]
      rw [hcongr]
      rfl

/-- CLAIM C2 (counterexample). With no user runners and two default
runners sharing a name, the merge keeps only the later-declared default,
while the claim (filtering defaults only against user names) predicts
both are appended. -/
theorem load_runners_merge_counterexample :
    load_runners [] [⟨"x", "a", false⟩, ⟨"x", "b", false⟩] ≠
      mergedPerSpec [] [⟨"x", "a", false⟩, ⟨"x", "b", false⟩] := by decide

/-- CLAIM C2 (amended): the merged list is the user-derived runners in
declared order, followed, in reverse declaration order, by exactly those
default-derived runners whose name (case-sensitive exact match) equals no
user-derived runner's name AND no already-appended default's name. -/
theorem load_runners_merge_characterization
    (user_runners default_runners : List Runner) :
    load_runners user_runners default_runners =
      user_runners ++
        appendedDefaults (user_runners.map Runner.name)
          default_runners.reverse :=
  foldl_mergeStep_eq default_runners.reverse user_runners

end Runfast

namespace Runfast

/-- Every runner kept by `appendedDefaults` has a name outside the blocked
list it started from. -/
theorem name_not_blocked_of_mem_appendedDefaults :
    ∀ (ds : List Runner) (blocked : List String) (d : Runner),
      d ∈ appendedDefaults blocked ds → d.name ∉ blocked := by
  intro ds
  induction ds with
  | nil => intro blocked d hd; cases hd
  | cons e ds ih =>
    intro blocked d hd
    rw [appendedDefaults_cons] at hd
    by_cases he : e.name ∈ blocked
    · rw [if_pos he] at hd
      exact ih blocked d hd
    · rw [if_neg he] at hd
      rcases List.mem_cons.mp hd with rfl | hd
      · exact he
      · intro hc
        exact ih (e.name :: blocked) d hd (List.mem_cons_of_mem _ hc)

/-- The runners appended by the merge loop have pairwise distinct names. -/
theorem appendedDefaults_pairwise :
    ∀ (ds : List Runner) (blocked : List String),
      (appendedDefaults blocked ds).Pairwise
        (fun a b => a.name ≠ b.name) := by
  intro ds
  induction ds with
  | nil => intro blocked; exact List.Pairwise.nil
  | cons e ds ih =>
    intro blocked
    rw [appendedDefaults_cons]
    by_cases he : e.name ∈ blocked
    · rw [if_pos he]
      exact ih blocked
    · rw [if_neg he]
      refine List.pairwise_cons.mpr ⟨fun d hd => ?_, ih _⟩
      intro hc
      exact name_not_blocked_of_mem_appendedDefaults ds _ d hd
        (hc ▸ List.mem_cons_self e.name blocked)

/-- CLAIM C9 (counterexample). The merge never deduplicates user-derived
runners against each other: two user entries sharing a name both survive
into the returned list, contradicting the claim that no two returned
runners share a name. -/
theorem load_runners_dedup_counterexample :
    ¬ (load_runners [⟨"x", "a", false⟩, ⟨"x", "b", false⟩] []).Pairwise
        (fun a b => a.name ≠ b.name) := by decide

/-- CLAIM C9 (amended): provided the user-derived runners already have
pairwise distinct names, the list returned by the merge is deduplicated by
name — no two runners in it share a name. (Duplicates can only ever occur
among user-derived runners.) -/
theorem load_runners_dedup_of_user_dedup
    (user_runners default_runners : List Runner)
    (h : user_runners.Pairwise (fun a b => a.name ≠ b.name)) :
    (load_runners user_runners default_runners).Pairwise
      (fun a b => a.name ≠ b.name) := by
  show (default_runners.reverse.foldl mergeStep user_runners).Pairwise _
  rw [foldl_mergeStep_eq]
  refine List.pairwise_append.mpr ⟨h, appendedDefaults_pairwise _ _,
    fun u hu d hd => ?_⟩
  intro hc
  exact name_not_blocked_of_mem_appendedDefaults _ _ d hd
    (hc ▸ List.mem_map_of_mem Runner.name hu)

/-- Witness for the amended C9 at a concrete pair of sources. -/
theorem load_runners_dedup_of_user_dedup_witness :
    ([(⟨"a", "u", false⟩ : Runner)].Pairwise fun a b => a.name ≠ b.name) ∧
      (load_runners [⟨"a", "u", false⟩]
          [⟨"a", "d1", false⟩, ⟨"b", "d2", true⟩]).Pairwise
        (fun a b => a.name ≠ b.name) :=
  ⟨by decide, load_runners_dedup_of_user_dedup _ _ (by decide)⟩

end Runfast

namespace Runfast

/-- After removing every pair keyed by `cwd`, lookup of `cwd` fails. -/
theorem find?_filter_ne_none (m : List (String × Runner)) (cwd : String) :
    (m.filter (fun p => p.1 != cwd)).find? (fun p => p.1 == cwd) = none := by
  induction m with
  | nil => rfl
  | cons a m ih =>
    rw [List.filter_cons]
    cases h : a.1 == cwd with
    | true =>
      rw [if_neg (by simp [bne, h])]
      exact ih
    | false =>
      rw [if_pos (by simp [bne, h]), List.find?_cons_of_neg _ (by simp [h])]
      exact ih

/-- `add_runner` always leaves the underlying list equal to the old list
with every `cwd` pair filtered out, followed by the new pair: when the key
was present the `if` branch filters, and when it was absent the filter
removes nothing. -/
theorem add_runner_runners (m : List (String × Runner)) (cwd : String)
    (r : Runner) :
    (RunnerCache.add_runner ⟨m⟩ cwd r).runners =
      m.filter (fun p => p.1 != cwd) ++ [(cwd, r)] := by
  show (if m.any (fun p => p.1 == cwd) then m.filter (fun p => p.1 != cwd)
      else m) ++ [(cwd, r)] = _
  cases h : m.any (fun p => p.1 == cwd) with
  | true => rw [if_pos rfl]
  | false =>
    rw [if_neg (by simp)]
    have hself : m.filter (fun p => p.1 != cwd) = m := by
      rw [List.filter_eq_self]
      intro p hp
      have hne := (List.any_eq_false.mp h) p hp
      simpa [bne] using hne
    rw [hself]

/-- CLAIM C5: inserting a runner for a directory makes the immediate
lookup of that directory return exactly that runner, whatever the prior
entries were; and two successive insertions for the same directory leave
exactly one entry for it, holding the second runner — insertion replaces,
never appends. -/
theorem add_runner_replaces :
    (∀ (m : List (String × Runner)) (dir : String) (r : Runner),
        (RunnerCache.add_runner ⟨m⟩ dir r).try_get_runner dir = some r)
    ∧ ∀ (m : List (String × Runner)) (dir : String) (r1 r2 : Runner),
        ((RunnerCache.add_runner ⟨m⟩ dir r1).add_runner dir r2).runners.filter
            (fun p => p.1 == dir) = [(dir, r2)] := by
  constructor
  · intro m dir r
    show (match (RunnerCache.add_runner ⟨m⟩ dir r).runners.find?
        (fun p => p.1 == dir) with
      | some p => some p.2
      | none => none) = some r
    rw [add_runner_runners, List.find?_append, find?_filter_ne_none,
      List.find?_cons_of_pos _ (by simp)]
    rfl
  · intro m dir r1 r2
    have hc : RunnerCache.add_runner ⟨m⟩ dir r1 =
        ⟨m.filter (fun p => p.1 != dir) ++ [(dir, r1)]⟩ :=
      congrArg RunnerCache.mk (add_runner_runners m dir r1)
    rw [hc, add_runner_runners, List.filter_append]
    have hnil : ∀ (l : List (String × Runner)),
        (l.filter (fun p => p.1 != dir)).filter (fun p => p.1 == dir) = [] := by
      intro l
      rw [List.filter_filter, List.filter_eq_nil_iff]
      intro p _
      cases hp : p.1 == dir <;> simp [bne, hp]
    rw [hnil]
    simp [List.filter_cons]

end Runfast

namespace Runfast

/-- CLAIM C1: a missing cache file loads as the empty cache; an existing
but unparsable cache file loads as `none`, a value distinct from every
successful load of a missing file; and in that failed state no run of the
orchestrator ever invokes `add_runner`, so the corrupted on-disk cache
file is never overwritten. -/
theorem load_corruption_safe :
    (∀ parsed, RunnerCache.load false parsed = some ⟨[]⟩)
    ∧ RunnerCache.load true ParseOutcome.err = none
    ∧ (∀ parsed, RunnerCache.load true ParseOutcome.err ≠
        RunnerCache.load false parsed)
    ∧ ∀ (force : Bool) (cwd : String) (runners : List Runner)
        (outcome : SkimOutcome),
        (mainStep force (RunnerCache.load true ParseOutcome.err) cwd runners
            outcome).diskWritten = false := by
  refine ⟨fun parsed => rfl, rfl, fun parsed => by simp [RunnerCache.load],
    ?_⟩
  intro force cwd runners outcome
  show (mainStep force none cwd runners outcome).diskWritten = false
  cases force <;> cases hs : select_new_runner runners outcome <;>
    simp [mainStep, hs]

/-- CLAIM C6: with `force_choose_new` false and a cache hit for the
current directory, the orchestrator returns the cached runner, leaves the
cache untouched, writes nothing, and the outcome of any selector session
is irrelevant (the selector is not consulted). -/
theorem cache_hit_returns_cached (c : RunnerCache) (cwd : String)
    (runners : List Runner) (outcome : SkimOutcome) (r : Runner)
    (h : c.try_get_runner cwd = some r) :
    mainStep false (some c) cwd runners outcome = ⟨some r, some c, false⟩ := by
  simp [mainStep, h]

/-- Witness for C6 at a concrete one-entry cache. -/
theorem cache_hit_returns_cached_witness :
    ((⟨[("d", ⟨"x", "a", false⟩)]⟩ : RunnerCache).try_get_runner "d" =
        some ⟨"x", "a", false⟩)
    ∧ mainStep false (some ⟨[("d", ⟨"x", "a", false⟩)]⟩) "d" []
        SkimOutcome.aborted =
      ⟨some ⟨"x", "a", false⟩, some ⟨[("d", ⟨"x", "a", false⟩)]⟩, false⟩ :=
  ⟨by decide, cache_hit_returns_cached _ _ _ _ _ (by decide)⟩

/-- CLAIM C7: with `force_choose_new` true the chosen runner is always the
selector's resolution, whatever the cache holds; the cache file is written
exactly when a runner was chosen AND the cache state is not load-failed;
and on a successful choice with a loaded cache the choice is persisted via
`add_runner`. -/
theorem force_choose_always_selects (cache : Option RunnerCache)
    (cwd : String) (runners : List Runner) (outcome : SkimOutcome) :
    (mainStep true cache cwd runners outcome).chosen =
        select_new_runner runners outcome
    ∧ (mainStep true cache cwd runners outcome).diskWritten =
        ((select_new_runner runners outcome).isSome && cache.isSome)
    ∧ ∀ (r : Runner) (c : RunnerCache),
        select_new_runner runners outcome = some r → cache = some c →
        mainStep true cache cwd runners outcome =
          ⟨some r, some (c.add_runner cwd r), true⟩ := by
  refine ⟨?_, ?_, ?_⟩
  · cases hs : select_new_runner runners outcome <;> cases cache <;>
      simp [mainStep, hs]
  · cases hs : select_new_runner runners outcome <;> cases cache <;>
      simp [mainStep, hs]
  · intro r c hr hc
    subst hc
    simp [mainStep, hr]

/-- Witness for C7 at a concrete loaded cache and selected key. -/
theorem force_choose_always_selects_witness :
    select_new_runner [⟨"x", "a", false⟩] (SkimOutcome.selected "x") =
        some ⟨"x", "a", false⟩
    ∧ mainStep true (some ⟨[]⟩) "d" [⟨"x", "a", false⟩]
        (SkimOutcome.selected "x") =
      ⟨some ⟨"x", "a", false⟩,
        some ((⟨[]⟩ : RunnerCache).add_runner "d" ⟨"x", "a", false⟩),
        true⟩ :=
  ⟨by decide,
    (force_choose_always_selects _ _ _ _).2.2 _ _ (by decide) rfl⟩

/-- CLAIM C8: whenever the selector is actually consulted (forced
selection, or no cache hit for the current directory) and it reports an
abort — or fails to start, which is reported as an internal error — the
run ends with no runner selected, no `add_runner` call, and the in-memory
cache (hence the entry for the current directory) unchanged. -/
theorem selector_abort_no_selection (force : Bool)
    (cache : Option RunnerCache) (cwd : String) (runners : List Runner)
    (outcome : SkimOutcome)
    (hout : outcome = SkimOutcome.aborted ∨ outcome = SkimOutcome.failed)
    (hmiss : force = true ∨
      ∀ c, cache = some c → c.try_get_runner cwd = none) :
    mainStep force cache cwd runners outcome = ⟨none, cache, false⟩ := by
  have hsel : select_new_runner runners outcome = none := by
    rcases hout with rfl | rfl <;> rfl
  cases force with
  | true => simp [mainStep, hsel]
  | false =>
    rcases hmiss with hforce | hm
    · exact absurd hforce (by simp)
    · cases cache with
      | none => simp [mainStep, hsel]
      | some c => simp [mainStep, hsel, hm c rfl]

/-- Witness for C8: an aborted session over an empty loaded cache. -/
theorem selector_abort_no_selection_witness :
    (SkimOutcome.aborted = SkimOutcome.aborted ∨
        SkimOutcome.aborted = SkimOutcome.failed)
    ∧ ((false = true) ∨ ∀ c : RunnerCache,
        some (⟨[]⟩ : RunnerCache) = some c → c.try_get_runner "d" = none)
    ∧ mainStep false (some ⟨[]⟩) "d" [] SkimOutcome.aborted =
      ⟨none, some ⟨[]⟩, false⟩ :=
  ⟨Or.inl rfl, Or.inr fun c hc => by cases hc; rfl,
    selector_abort_no_selection _ _ _ _ _ (Or.inl rfl)
      (Or.inr fun c hc => by cases hc; rfl)⟩

end Runfast

namespace Runfast

/-- Witness for C1 instantiating the corruption-safety conjunction at a
concrete parse outcome and run. -/
theorem load_corruption_safe_witness :
    RunnerCache.load false ParseOutcome.err = some ⟨[]⟩
    ∧ RunnerCache.load true ParseOutcome.err ≠
        RunnerCache.load false ParseOutcome.err
    ∧ (mainStep true (RunnerCache.load true ParseOutcome.err) "d" []
        (SkimOutcome.selected "x")).diskWritten = false :=
  ⟨load_corruption_safe.1 ParseOutcome.err,
    load_corruption_safe.2.2.1 ParseOutcome.err,
    load_corruption_safe.2.2.2 true "d" [] (SkimOutcome.selected "x")⟩

end Runfast
